import Mathlib

/-
Verification development for the SolarOvenLogger sketch
(src/TempratureMonitorSolarOvens.ino).

The sketch is embedded shallowly:
* EEPROM is a byte-addressable memory `Mem := Int → Nat`; `EEPROM.put` /
  `EEPROM.get` on 16-bit `int` values become `putInt16` / `getInt16`
  (twos-complement little-endian encoding), `EEPROM.write` becomes
  `writeByte`.  The physical capacity `EEPROM.length()` is kept as a
  parameter `len` (1024 on the target board).
* Machine `int` values are modelled as `Int`; all source executions that
  are free of signed overflow agree with this exact-integer model, and the
  EEPROM round-trip carries the explicit 16-bit range hypothesis.
* The volatile program state (`readingIndex`, `logging`) together with the
  EEPROM image forms `LoggerState`; the code paths of `loop` and `setup`
  become pure functions on that state.
* `float` arithmetic of the energy estimate is modelled exactly over `ℚ`
  (the decimal literals of the source taken at their exact rational value).
-/

namespace SolarOven

/-- Byte-addressable non-volatile memory, addressed by machine `int`
addresses as in the Arduino EEPROM API. -/
def Mem : Type := Int → Nat

/-- Constant `const int maxReadings = 60` (line 36). -/
def maxReadings : Int := 60

/-- Constant `const int eepromStartAddress = 4` (line 37). -/
def eepromStartAddress : Int := 4

/-- Constant `const int anomalyThreshold = 10` (line 46). -/
def anomalyThreshold : Int := 10

/-- The value fits in a signed 16-bit `int`, the cell type the sketch
stores in EEPROM. -/
def inRange16 (v : Int) : Prop := -32768 ≤ v ∧ v < 32768

instance (v : Int) : Decidable (inRange16 v) := by
  unfold inRange16; exact inferInstance

/-- Twos-complement 16-bit image of an `int` value. -/
def encode16 (v : Int) : Nat := (v % 65536).toNat

/-- Read a 16-bit twos-complement image back as a signed value. -/
def decode16 (u : Nat) : Int := if u < 32768 then (u : Int) else (u : Int) - 65536

/-- Low byte of the 16-bit image. -/
def lowByte (v : Int) : Nat := encode16 v % 256

/-- High byte of the 16-bit image. -/
def highByte (v : Int) : Nat := encode16 v / 256

/-- Model of `EEPROM.write(a, b)`: store one byte. -/
def writeByte (m : Mem) (a : Int) (b : Nat) : Mem :=
  fun x => if x = a then b % 256 else m x

/-- Read one byte. -/
def readByte (m : Mem) (a : Int) : Nat := m a % 256

/-- Model of `EEPROM.put(a, v)` for a 16-bit `int` `v`: little-endian two-byte
write. -/
def putInt16 (m : Mem) (a : Int) (v : Int) : Mem :=
  writeByte (writeByte m a (lowByte v)) (a + 1) (highByte v)

/-- Model of `EEPROM.get(a, v)` for a 16-bit `int`: little-endian two-byte read. -/
def getInt16 (m : Mem) (a : Int) : Int :=
  decode16 (readByte m a + 256 * readByte m (a + 1))

theorem writeByte_same (m : Mem) (a : Int) (b : Nat) :
    writeByte m a b a = b % 256 := by
  unfold writeByte; simp

theorem writeByte_ne (m : Mem) (a x : Int) (b : Nat) (h : x ≠ a) :
    writeByte m a b x = m x := by
  unfold writeByte; simp [h]

theorem encode16_lt (v : Int) : encode16 v < 65536 := by
  unfold encode16; omega

theorem lowByte_lt (v : Int) : lowByte v < 256 := by
  unfold lowByte; omega

theorem highByte_lt (v : Int) : highByte v < 256 := by
  have := encode16_lt v
  unfold highByte; omega

theorem putInt16_apply_ne (m : Mem) (a v : Int) (x : Int)
    (h1 : x ≠ a) (h2 : x ≠ a + 1) : putInt16 m a v x = m x := by
  unfold putInt16
  rw [writeByte_ne _ _ _ _ h2, writeByte_ne _ _ _ _ h1]

theorem readByte_putInt16_low (m : Mem) (a v : Int) :
    readByte (putInt16 m a v) a = lowByte v := by
  unfold putInt16 readByte
  rw [writeByte_ne _ _ _ _ (by omega), writeByte_same]
  have := lowByte_lt v
  omega

theorem readByte_putInt16_high (m : Mem) (a v : Int) :
    readByte (putInt16 m a v) (a + 1) = highByte v := by
  unfold putInt16 readByte
  rw [writeByte_same]
  have := highByte_lt v
  omega

theorem decode16_encode16 (v : Int) (h : inRange16 v) :
    decode16 (encode16 v) = v := by
  unfold decode16 encode16
  unfold inRange16 at h
  split <;> omega

theorem getInt16_putInt16 (m : Mem) (a v : Int) (h : inRange16 v) :
    getInt16 (putInt16 m a v) a = v := by
  unfold getInt16
  rw [readByte_putInt16_low, readByte_putInt16_high]
  have hlow : lowByte v + 256 * highByte v = encode16 v := by
    have := encode16_lt v
    unfold lowByte highByte
    omega
  rw [hlow, decode16_encode16 v h]

theorem getInt16_congr (m1 m2 : Mem) (a : Int)
    (h0 : m1 a = m2 a) (h1 : m1 (a + 1) = m2 (a + 1)) :
    getInt16 m1 a = getInt16 m2 a := by
  unfold getInt16 readByte
  rw [h0, h1]

theorem getInt16_putInt16_ne (m : Mem) (a v b : Int)
    (hb0 : b ≠ a) (hb1 : b ≠ a + 1) (hb2 : b + 1 ≠ a) (hb3 : b + 1 ≠ a + 1) :
    getInt16 (putInt16 m a v) b = getInt16 m b := by
  apply getInt16_congr
  · exact putInt16_apply_ne m a v b hb0 hb1
  · exact putInt16_apply_ne m a v (b + 1) hb2 hb3

/-- Address of the first channel of record `i`:
`eepromStartAddress + readingIndex * 4` (lines 127, 141, 216). -/
def recAddr1 (i : Int) : Int := eepromStartAddress + i * 4

/-- Address of the second channel of record `i`: `address1 + 2`
(lines 128, 142, 217). -/
def recAddr2 (i : Int) : Int := recAddr1 i + 2

/-- Read the stored record at index `i` (two `EEPROM.get` calls). -/
def readRecord (m : Mem) (i : Int) : Int × Int :=
  (getInt16 m (recAddr1 i), getInt16 m (recAddr2 i))

/-- The program state: the EEPROM image plus the volatile globals
`readingIndex` (line 38) and `logging` (line 28). -/
structure LoggerState where
  mem : Mem
  readingIndex : Int
  logging : Bool

/-- Result of the store branch of the sampling path (lines 140-164). -/
inductive AppendResult
  | ok (idx : Int)
  | capacityError
  | overflowError
deriving DecidableEq

/-- The append path, lines 140-164: if the store is not full and the
computed byte range fits the physical capacity `len`, write the two
channel values at the record addresses, increment `readingIndex` and
persist it at address 0; on a full store or an address overflow stop
logging and leave everything else unchanged. -/
def appendRecord (len : Int) (s : LoggerState) (t1 t2 : Int) :
    LoggerState × AppendResult :=
  if s.readingIndex < maxReadings then
    if recAddr2 s.readingIndex + 1 < len then
      let m1 := putInt16 s.mem (recAddr1 s.readingIndex) t1
      let m2 := putInt16 m1 (recAddr2 s.readingIndex) t2
      let idx := s.readingIndex + 1
      (⟨putInt16 m2 0 idx, idx, s.logging⟩, AppendResult.ok s.readingIndex)
    else (⟨s.mem, s.readingIndex, false⟩, AppendResult.overflowError)
  else (⟨s.mem, s.readingIndex, false⟩, AppendResult.capacityError)

/-- The anomaly filter, lines 125-137: with no previous stored record the
candidate is always taken; otherwise it is discarded exactly when one of
the per-channel absolute deltas exceeds `anomalyThreshold` (line 133). -/
def accept (cand : Int × Int) : Option (Int × Int) → Bool
  | none => true
  | some prev =>
      if |cand.1 - prev.1| > anomalyThreshold ∨ |cand.2 - prev.2| > anomalyThreshold
      then false else true

/-- The record the anomaly check compares against: the most recently
stored record, read back from EEPROM (lines 125-131), absent when
`readingIndex` is not positive. -/
def prevStored (s : LoggerState) : Option (Int × Int) :=
  if s.readingIndex > 0 then some (readRecord s.mem (s.readingIndex - 1)) else none

/-- Outcome of one sampling tick. -/
inductive TickOutcome
  | sensorFault
  | anomalyRejected
  | stored (idx : Int)
  | capacityStop
  | overflowStop
deriving DecidableEq

/-- One sampling tick, lines 106-181, after the cadence check has fired:
`a1`, `a2` are the raw analog readings, `t1`, `t2` the converted
temperatures (the sensor-to-temperature conversion is the external
black-box collaborator).  A non-positive raw reading on either channel
skips the sample before any filtering; an anomalous candidate is
discarded by the early `return` of line 135; otherwise the append path
runs. -/
def sampleTick (len : Int) (s : LoggerState) (a1 a2 t1 t2 : Int) :
    LoggerState × TickOutcome :=
  if a1 > 0 ∧ a2 > 0 then
    if accept (t1, t2) (prevStored s) then
      match appendRecord len s t1 t2 with
      | (s', AppendResult.ok i) => (s', TickOutcome.stored i)
      | (s', AppendResult.capacityError) => (s', TickOutcome.capacityStop)
      | (s', AppendResult.overflowError) => (s', TickOutcome.overflowStop)
    else (s, TickOutcome.anomalyRejected)
  else (s, TickOutcome.sensorFault)

/-- The toggle-button edge, lines 87-96: flip `logging`; when it turns on,
reset the volatile `readingIndex` to 0.  The EEPROM image is untouched. -/
def toggleButton (s : LoggerState) : LoggerState :=
  if s.logging then ⟨s.mem, s.readingIndex, false⟩ else ⟨s.mem, 0, true⟩

/-- Function `setup`, lines 48-80, as far as state is concerned: `logging` starts
`false` (line 28) and `readingIndex` is read back from EEPROM address 0
(line 56). -/
def restart (m : Mem) : LoggerState := ⟨m, getInt16 m 0, false⟩

/-- The erase loop of lines 194-196: `EEPROM.write(eepromStartAddress + i, 0)`
for `i` in `[0, n)`. -/
def eraseLoop (m : Mem) : Nat → Mem
  | 0 => m
  | n + 1 => writeByte (eraseLoop m n) (eepromStartAddress + (n : Int)) 0

/-- The erase command, lines 192-201: zero `maxReadings * 4` bytes of the
record region, reset `readingIndex` to 0 and persist it at address 0. -/
def eraseAll (s : LoggerState) : LoggerState :=
  ⟨putInt16 (eraseLoop s.mem (maxReadings * 4).toNat) 0 0, 0, s.logging⟩

/-- Failure of a record lookup, named as in the design document. -/
inductive GetError
  | rangeError
deriving DecidableEq

/-- Accessor `PersistentStore.get`: the guarded record read of the replay loop
(lines 215-227) as a single accessor — the index must lie below the
stored count and the computed byte range must fit the capacity,
otherwise the lookup fails. -/
def getRecord (len : Int) (s : LoggerState) (i : Nat) : Except GetError (Int × Int) :=
  if (i : Int) < s.readingIndex ∧ recAddr2 (i : Int) + 1 < len then
    Except.ok (readRecord s.mem (i : Int))
  else Except.error GetError.rangeError

/-- Accumulator of the replay loop, lines 207-214: emitted raw lines plus
the running statistics (initial values from lines 207-214). -/
structure ReplayAcc where
  lines : List (Int × Int)
  highest1 : Int
  highest2 : Int
  total1 : Int
  total2 : Int
  first1 : Int
  first2 : Int
  last1 : Int
  last2 : Int
deriving DecidableEq

/-- Initial accumulator (lines 207-214): sentinels -9999 for the maxima,
zeroes elsewhere. -/
def initAcc : ReplayAcc := ⟨[], -9999, -9999, 0, 0, 0, 0, 0, 0⟩

/-- One iteration of the replay loop body, lines 216-245, at index `i`
with stored count `count`: read the record, emit it as a raw line, and
update first/last/highest/total per channel. -/
def replayStep (m : Mem) (count : Int) (i : Nat) (acc : ReplayAcc) : ReplayAcc :=
  let t1 := getInt16 m (recAddr1 (i : Int))
  let t2 := getInt16 m (recAddr2 (i : Int))
  ⟨acc.lines ++ [(t1, t2)],
   if t1 > acc.highest1 then t1 else acc.highest1,
   if t2 > acc.highest2 then t2 else acc.highest2,
   acc.total1 + t1,
   acc.total2 + t2,
   if i = 0 then t1 else acc.first1,
   if i = 0 then t2 else acc.first2,
   if (i : Int) = count - 1 then t1 else acc.last1,
   if (i : Int) = count - 1 then t2 else acc.last2⟩

/-- The replay loop driver over the list of indices still to visit: the
address guard of line 221 aborts the scan (`break`, line 226) when the
computed byte range leaves the capacity. -/
def replayGo (len : Int) (m : Mem) (count : Int) : List Nat → ReplayAcc → ReplayAcc
  | [], acc => acc
  | i :: rest, acc =>
      if recAddr2 (i : Int) + 1 < len then
        replayGo len m count rest (replayStep m count i acc)
      else acc

/-- The whole replay scan `for (int i = 0; i < readingIndex; i++)`
(lines 215-246). -/
def replayRun (len : Int) (m : Mem) (count : Int) : ReplayAcc :=
  replayGo len m count (List.range count.toNat) initAcc

/-- Constant `const float specificHeatCapacityAir = 1.005` (line 21), exact. -/
def specificHeatCapacityAir : ℚ := 1.005

/-- Constant `const float volumeInches = 10.0` (line 22), exact. -/
def volumeInches : ℚ := 10

/-- Line 23: enclosure volume in litres, exact rational value of the
source expression. -/
def volumeLiters : ℚ :=
  volumeInches * volumeInches * volumeInches * (2.54 * 2.54 * 2.54) / 1000

/-- Constant `const float densityAir = 1.225` (line 24), exact. -/
def densityAir : ℚ := 1.225

/-- Constant `const float massAir = volumeLiters * densityAir` (line 25), exact. -/
def massAir : ℚ := volumeLiters * densityAir

/-- One event on the line-oriented status stream during a load. -/
inductive LoadEvent
  | line (t1 t2 : Int)
  | report (highest1 avg1 highest2 avg2 count : Int) (energy1 energy2 : ℚ)
  | noData
deriving DecidableEq

/-- The load command, lines 206-282: stream every visited record as a raw
line, then emit the aggregate report (lines 247-279) when the stored
count is positive, else the no-data message (line 281).  Averages use
the C truncating division (`Int.div`); the energy estimate is
`specificHeatCapacityAir * massAir * |last - first|` per channel
(lines 252-257). -/
def loadData (len : Int) (s : LoggerState) : List LoadEvent :=
  ((replayRun len s.mem s.readingIndex).lines.map fun p => LoadEvent.line p.1 p.2) ++
    (if s.readingIndex > 0 then
      [LoadEvent.report (replayRun len s.mem s.readingIndex).highest1
        (Int.tdiv (replayRun len s.mem s.readingIndex).total1 s.readingIndex)
        (replayRun len s.mem s.readingIndex).highest2
        (Int.tdiv (replayRun len s.mem s.readingIndex).total2 s.readingIndex)
        s.readingIndex
        (specificHeatCapacityAir * massAir *
          ((|(replayRun len s.mem s.readingIndex).last1 -
              (replayRun len s.mem s.readingIndex).first1| : Int) : ℚ))
        (specificHeatCapacityAir * massAir *
          ((|(replayRun len s.mem s.readingIndex).last2 -
              (replayRun len s.mem s.readingIndex).first2| : Int) : ℚ))]
     else [LoadEvent.noData])

/-- A sequence of append operations (each one the store branch of a tick
whose candidate the filter accepted). -/
def appendAll (len : Int) : LoggerState → List (Int × Int) → LoggerState
  | s, [] => s
  | s, p :: rest => appendAll len (appendRecord len s p.1 p.2).1 rest

/-- The store currently holds exactly the records of `l`, in order. -/
def storedList (s : LoggerState) (l : List (Int × Int)) : Prop :=
  s.readingIndex = (l.length : Int) ∧
    ∀ j : Fin l.length, readRecord s.mem ((j : Nat) : Int) = l.get j

theorem recAddr1_eq (i : Int) : recAddr1 i = 4 + i * 4 := rfl

theorem recAddr2_eq (i : Int) : recAddr2 i = 4 + i * 4 + 2 := rfl

theorem appendRecord_eq_of_fits (len : Int) (s : LoggerState) (t1 t2 : Int)
    (h1 : s.readingIndex < maxReadings) (h2 : recAddr2 s.readingIndex + 1 < len) :
    appendRecord len s t1 t2 =
      (⟨putInt16 (putInt16 (putInt16 s.mem (recAddr1 s.readingIndex) t1)
          (recAddr2 s.readingIndex) t2) 0 (s.readingIndex + 1),
        s.readingIndex + 1, s.logging⟩, AppendResult.ok s.readingIndex) := by
  simp only [appendRecord]
  rw [if_pos h1, if_pos h2]

theorem readRecord_append_same (m : Mem) (k t1 t2 : Int) (hk : 0 ≤ k)
    (h1 : inRange16 t1) (h2 : inRange16 t2) :
    readRecord (putInt16 (putInt16 (putInt16 m (recAddr1 k) t1) (recAddr2 k) t2)
      0 (k + 1)) k = (t1, t2) := by
  have A1 := recAddr1_eq k
  have A2 := recAddr2_eq k
  unfold readRecord
  rw [getInt16_putInt16_ne _ 0 _ (recAddr1 k) (by omega) (by omega) (by omega) (by omega)]
  rw [getInt16_putInt16_ne _ 0 _ (recAddr2 k) (by omega) (by omega) (by omega) (by omega)]
  rw [getInt16_putInt16_ne _ (recAddr2 k) _ (recAddr1 k)
    (by omega) (by omega) (by omega) (by omega)]
  rw [getInt16_putInt16 _ _ _ h1, getInt16_putInt16 _ _ _ h2]

theorem readRecord_append_ne (m : Mem) (k t1 t2 i : Int) (hk : 0 ≤ k)
    (hi : 0 ≤ i) (hne : i ≠ k) :
    readRecord (putInt16 (putInt16 (putInt16 m (recAddr1 k) t1) (recAddr2 k) t2)
      0 (k + 1)) i = readRecord m i := by
  have A1 := recAddr1_eq k
  have A2 := recAddr2_eq k
  have B1 := recAddr1_eq i
  have B2 := recAddr2_eq i
  unfold readRecord
  rw [getInt16_putInt16_ne _ 0 _ (recAddr1 i) (by omega) (by omega) (by omega) (by omega)]
  rw [getInt16_putInt16_ne _ 0 _ (recAddr2 i) (by omega) (by omega) (by omega) (by omega)]
  rw [getInt16_putInt16_ne _ (recAddr2 k) _ (recAddr1 i)
    (by omega) (by omega) (by omega) (by omega)]
  rw [getInt16_putInt16_ne _ (recAddr2 k) _ (recAddr2 i)
    (by omega) (by omega) (by omega) (by omega)]
  rw [getInt16_putInt16_ne _ (recAddr1 k) _ (recAddr1 i)
    (by omega) (by omega) (by omega) (by omega)]
  rw [getInt16_putInt16_ne _ (recAddr1 k) _ (recAddr2 i)
    (by omega) (by omega) (by omega) (by omega)]

theorem getInt16_append_count (m : Mem) (k t1 t2 : Int) (h : inRange16 (k + 1)) :
    getInt16 (putInt16 (putInt16 (putInt16 m (recAddr1 k) t1) (recAddr2 k) t2)
      0 (k + 1)) 0 = k + 1 :=
  getInt16_putInt16 _ _ _ h

theorem appendAll_spec (len : Int) (hlen : 244 ≤ len) (l : List (Int × Int)) :
    ∀ s : LoggerState,
      (∀ p ∈ l, inRange16 p.1 ∧ inRange16 p.2) →
      0 ≤ s.readingIndex →
      s.readingIndex + (l.length : Int) ≤ maxReadings →
      (appendAll len s l).readingIndex = s.readingIndex + (l.length : Int) ∧
      (appendAll len s l).logging = s.logging ∧
      (∀ (j : Nat) (hj : j < l.length),
          readRecord (appendAll len s l).mem (s.readingIndex + (j : Int)) =
            l.get ⟨j, hj⟩) ∧
      (∀ i : Int, 0 ≤ i → i < s.readingIndex →
          readRecord (appendAll len s l).mem i = readRecord s.mem i) := by
  induction l with
  | nil =>
      intro s _ _ _
      refine ⟨by simp [appendAll], by simp [appendAll], ?_, ?_⟩
      · intro j hj; exact absurd hj (Nat.not_lt_zero j)
      · intro i _ _; simp [appendAll]
  | cons p rest ih =>
      intro s hr h0 hcap
      have hlength : ((p :: rest).length : Int) = (rest.length : Int) + 1 := by
        push_cast [List.length_cons]; ring
      have hmax : s.readingIndex < maxReadings := by
        rw [hlength] at hcap
        have : (0 : Int) ≤ (rest.length : Int) := Int.natCast_nonneg _
        omega
      have haddr : recAddr2 s.readingIndex + 1 < len := by
        have := recAddr2_eq s.readingIndex
        unfold maxReadings at hmax
        omega
      have happ := appendRecord_eq_of_fits len s p.1 p.2 hmax haddr
      have hstep : appendAll len s (p :: rest) =
          appendAll len
            ⟨putInt16 (putInt16 (putInt16 s.mem (recAddr1 s.readingIndex) p.1)
                (recAddr2 s.readingIndex) p.2) 0 (s.readingIndex + 1),
              s.readingIndex + 1, s.logging⟩ rest := by
        show appendAll len (appendRecord len s p.1 p.2).1 rest = _
        rw [happ]
      have hp := hr p (List.mem_cons_self p rest)
      have hr' : ∀ q ∈ rest, inRange16 q.1 ∧ inRange16 q.2 := by
        intro q hq; exact hr q (List.mem_cons_of_mem p hq)
      have hcap' : (s.readingIndex + 1) + (rest.length : Int) ≤ maxReadings := by
        rw [hlength] at hcap; omega
      obtain ⟨ih1, ih2, ih3, ih4⟩ :=
        ih ⟨putInt16 (putInt16 (putInt16 s.mem (recAddr1 s.readingIndex) p.1)
              (recAddr2 s.readingIndex) p.2) 0 (s.readingIndex + 1),
            s.readingIndex + 1, s.logging⟩ hr' (by dsimp only; omega) hcap'
      dsimp only at ih1 ih2 ih3 ih4
      refine ⟨?_, ?_, ?_, ?_⟩
      · rw [hstep, ih1, hlength]; ring
      · rw [hstep]; exact ih2
      · intro j hj
        rw [hstep]
        match j with
        | 0 =>
            have hk : s.readingIndex + ((0 : Nat) : Int) = s.readingIndex := by
              push_cast; ring
            rw [hk]
            rw [ih4 s.readingIndex h0 (by omega)]
            show readRecord _ s.readingIndex = _
            rw [readRecord_append_same s.mem s.readingIndex p.1 p.2 h0 hp.1 hp.2]
            exact Prod.mk.eta
        | Nat.succ j' =>
            have hj' : j' < rest.length := by
              simpa [List.length_cons] using hj
            have hk : s.readingIndex + ((j' + 1 : Nat) : Int) =
                (s.readingIndex + 1) + (j' : Int) := by push_cast; ring
            rw [hk]
            have := ih3 j' hj'
            rw [this]
            rfl
      · intro i hi0 hik
        rw [hstep]
        rw [ih4 i hi0 (by omega)]
        show readRecord _ i = _
        rw [readRecord_append_ne s.mem s.readingIndex p.1 p.2 i h0 hi0 (by omega)]

/-- Channel-1 value stored at index `i`, as the replay loop reads it. -/
def chan1 (m : Mem) (i : Nat) : Int := getInt16 m (recAddr1 (i : Int))

/-- Channel-2 value stored at index `i`, as the replay loop reads it. -/
def chan2 (m : Mem) (i : Nat) : Int := getInt16 m (recAddr2 (i : Int))

theorem ite_gt_eq_max (h t : Int) : (if t > h then t else h) = max h t := by
  split <;> omega

theorem replayGo_append (len : Int) (m : Mem) (count : Int) (xs ys : List Nat) :
    ∀ acc : ReplayAcc, (∀ i ∈ xs, recAddr2 (i : Int) + 1 < len) →
      replayGo len m count (xs ++ ys) acc =
        replayGo len m count ys (replayGo len m count xs acc) := by
  induction xs with
  | nil => intro acc _; rfl
  | cons i rest ih =>
      intro acc hb
      have hi : recAddr2 (i : Int) + 1 < len := hb i (List.mem_cons_self i rest)
      simp only [List.cons_append, replayGo, if_pos hi]
      exact ih _ fun j hj => hb j (List.mem_cons_of_mem i hj)

theorem replayGo_lines (len : Int) (m : Mem) (count : Int) (is : List Nat) :
    ∀ acc : ReplayAcc, (∀ i ∈ is, recAddr2 (i : Int) + 1 < len) →
      (replayGo len m count is acc).lines =
        acc.lines ++ is.map (fun i => (chan1 m i, chan2 m i)) := by
  induction is with
  | nil => intro acc _; simp [replayGo]
  | cons i rest ih =>
      intro acc hb
      have hi : recAddr2 (i : Int) + 1 < len := hb i (List.mem_cons_self i rest)
      simp only [replayGo, if_pos hi]
      rw [ih _ fun j hj => hb j (List.mem_cons_of_mem i hj)]
      simp [replayStep, chan1, chan2]

theorem replayGo_total1 (len : Int) (m : Mem) (count : Int) (is : List Nat) :
    ∀ acc : ReplayAcc, (∀ i ∈ is, recAddr2 (i : Int) + 1 < len) →
      (replayGo len m count is acc).total1 =
        acc.total1 + (is.map (chan1 m)).sum := by
  induction is with
  | nil => intro acc _; simp [replayGo]
  | cons i rest ih =>
      intro acc hb
      have hi : recAddr2 (i : Int) + 1 < len := hb i (List.mem_cons_self i rest)
      simp only [replayGo, if_pos hi]
      rw [ih _ fun j hj => hb j (List.mem_cons_of_mem i hj)]
      simp [replayStep, chan1]
      ring

theorem replayGo_total2 (len : Int) (m : Mem) (count : Int) (is : List Nat) :
    ∀ acc : ReplayAcc, (∀ i ∈ is, recAddr2 (i : Int) + 1 < len) →
      (replayGo len m count is acc).total2 =
        acc.total2 + (is.map (chan2 m)).sum := by
  induction is with
  | nil => intro acc _; simp [replayGo]
  | cons i rest ih =>
      intro acc hb
      have hi : recAddr2 (i : Int) + 1 < len := hb i (List.mem_cons_self i rest)
      simp only [replayGo, if_pos hi]
      rw [ih _ fun j hj => hb j (List.mem_cons_of_mem i hj)]
      simp [replayStep, chan2]
      ring

theorem replayGo_highest1 (len : Int) (m : Mem) (count : Int) (is : List Nat) :
    ∀ acc : ReplayAcc, (∀ i ∈ is, recAddr2 (i : Int) + 1 < len) →
      (replayGo len m count is acc).highest1 =
        List.foldl max acc.highest1 (is.map (chan1 m)) := by
  induction is with
  | nil => intro acc _; simp [replayGo]
  | cons i rest ih =>
      intro acc hb
      have hi : recAddr2 (i : Int) + 1 < len := hb i (List.mem_cons_self i rest)
      simp only [replayGo, if_pos hi]
      rw [ih _ fun j hj => hb j (List.mem_cons_of_mem i hj)]
      simp only [List.map_cons, List.foldl_cons]
      congr 1
      simp only [replayStep]
      exact ite_gt_eq_max acc.highest1 (chan1 m i)

theorem replayGo_highest2 (len : Int) (m : Mem) (count : Int) (is : List Nat) :
    ∀ acc : ReplayAcc, (∀ i ∈ is, recAddr2 (i : Int) + 1 < len) →
      (replayGo len m count is acc).highest2 =
        List.foldl max acc.highest2 (is.map (chan2 m)) := by
  induction is with
  | nil => intro acc _; simp [replayGo]
  | cons i rest ih =>
      intro acc hb
      have hi : recAddr2 (i : Int) + 1 < len := hb i (List.mem_cons_self i rest)
      simp only [replayGo, if_pos hi]
      rw [ih _ fun j hj => hb j (List.mem_cons_of_mem i hj)]
      simp only [List.map_cons, List.foldl_cons]
      congr 1
      simp only [replayStep]
      exact ite_gt_eq_max acc.highest2 (chan2 m i)

theorem replayGo_first1_preserved (len : Int) (m : Mem) (count : Int) (is : List Nat) :
    ∀ acc : ReplayAcc, (∀ i ∈ is, i ≠ 0) →
      (replayGo len m count is acc).first1 = acc.first1 := by
  induction is with
  | nil => intro acc _; rfl
  | cons i rest ih =>
      intro acc hb
      have hi : i ≠ 0 := hb i (List.mem_cons_self i rest)
      simp only [replayGo]
      split
      · rw [ih _ fun j hj => hb j (List.mem_cons_of_mem i hj)]
        simp [replayStep, hi]
      · rfl

theorem replayGo_first2_preserved (len : Int) (m : Mem) (count : Int) (is : List Nat) :
    ∀ acc : ReplayAcc, (∀ i ∈ is, i ≠ 0) →
      (replayGo len m count is acc).first2 = acc.first2 := by
  induction is with
  | nil => intro acc _; rfl
  | cons i rest ih =>
      intro acc hb
      have hi : i ≠ 0 := hb i (List.mem_cons_self i rest)
      simp only [replayGo]
      split
      · rw [ih _ fun j hj => hb j (List.mem_cons_of_mem i hj)]
        simp [replayStep, hi]
      · rfl

theorem replayGo_last1_preserved (len : Int) (m : Mem) (count : Int) (is : List Nat) :
    ∀ acc : ReplayAcc, (∀ i ∈ is, (i : Int) ≠ count - 1) →
      (replayGo len m count is acc).last1 = acc.last1 := by
  induction is with
  | nil => intro acc _; rfl
  | cons i rest ih =>
      intro acc hb
      have hi : (i : Int) ≠ count - 1 := hb i (List.mem_cons_self i rest)
      simp only [replayGo]
      split
      · rw [ih _ fun j hj => hb j (List.mem_cons_of_mem i hj)]
        simp [replayStep, hi]
      · rfl

theorem replayGo_last2_preserved (len : Int) (m : Mem) (count : Int) (is : List Nat) :
    ∀ acc : ReplayAcc, (∀ i ∈ is, (i : Int) ≠ count - 1) →
      (replayGo len m count is acc).last2 = acc.last2 := by
  induction is with
  | nil => intro acc _; rfl
  | cons i rest ih =>
      intro acc hb
      have hi : (i : Int) ≠ count - 1 := hb i (List.mem_cons_self i rest)
      simp only [replayGo]
      split
      · rw [ih _ fun j hj => hb j (List.mem_cons_of_mem i hj)]
        simp [replayStep, hi]
      · rfl

theorem replayRun_spec (len : Int) (m : Mem) (n : Nat) (hn : 0 < n)
    (hb : ∀ i : Nat, i < n → recAddr2 (i : Int) + 1 < len) :
    (replayRun len m (n : Int)).lines =
        (List.range n).map (fun i => (chan1 m i, chan2 m i)) ∧
    (replayRun len m (n : Int)).total1 = ((List.range n).map (chan1 m)).sum ∧
    (replayRun len m (n : Int)).total2 = ((List.range n).map (chan2 m)).sum ∧
    (replayRun len m (n : Int)).highest1 =
        List.foldl max (-9999) ((List.range n).map (chan1 m)) ∧
    (replayRun len m (n : Int)).highest2 =
        List.foldl max (-9999) ((List.range n).map (chan2 m)) ∧
    (replayRun len m (n : Int)).first1 = chan1 m 0 ∧
    (replayRun len m (n : Int)).first2 = chan2 m 0 ∧
    (replayRun len m (n : Int)).last1 = chan1 m (n - 1) ∧
    (replayRun len m (n : Int)).last2 = chan2 m (n - 1) := by
  have htn : ((n : Int)).toNat = n := Int.toNat_natCast n
  have hrange : ∀ i ∈ List.range n, recAddr2 (i : Int) + 1 < len := by
    intro i hi; exact hb i (List.mem_range.mp hi)
  have hrun : replayRun len m (n : Int) =
      replayGo len m (n : Int) (List.range n) initAcc := by
    unfold replayRun; rw [htn]
  obtain ⟨k, rfl⟩ : ∃ k, n = k + 1 := ⟨n - 1, by omega⟩
  refine ⟨?_, ?_, ?_, ?_, ?_, ?_, ?_, ?_, ?_⟩
  · rw [hrun, replayGo_lines len m _ (List.range (k + 1)) initAcc hrange]
    simp [initAcc]
  · rw [hrun, replayGo_total1 len m _ (List.range (k + 1)) initAcc hrange]
    simp [initAcc]
  · rw [hrun, replayGo_total2 len m _ (List.range (k + 1)) initAcc hrange]
    simp [initAcc]
  · rw [hrun, replayGo_highest1 len m _ (List.range (k + 1)) initAcc hrange]
    simp [initAcc]
  · rw [hrun, replayGo_highest2 len m _ (List.range (k + 1)) initAcc hrange]
    simp [initAcc]
  · rw [hrun, List.range_succ_eq_map]
    have h0 : recAddr2 ((0 : Nat) : Int) + 1 < len := hb 0 (by omega)
    simp only [replayGo, if_pos h0]
    rw [replayGo_first1_preserved]
    · simp [replayStep, chan1]
    · intro i hi
      simp only [List.mem_map] at hi
      obtain ⟨j, _, rfl⟩ := hi
      exact Nat.succ_ne_zero j
  · rw [hrun, List.range_succ_eq_map]
    have h0 : recAddr2 ((0 : Nat) : Int) + 1 < len := hb 0 (by omega)
    simp only [replayGo, if_pos h0]
    rw [replayGo_first2_preserved]
    · simp [replayStep, chan2]
    · intro i hi
      simp only [List.mem_map] at hi
      obtain ⟨j, _, rfl⟩ := hi
      exact Nat.succ_ne_zero j
  · rw [hrun, List.range_succ]
    rw [replayGo_append len m _ (List.range k) [k] initAcc
      (fun i hi => hb i (by have := List.mem_range.mp hi; omega))]
    have hk : recAddr2 ((k : Nat) : Int) + 1 < len := hb k (by omega)
    simp only [replayGo, if_pos hk]
    have hc : ((k : Nat) : Int) = ((k + 1 : Nat) : Int) - 1 := by push_cast; ring
    simp only [replayStep]
    rw [if_pos hc]
    simp [chan1]
  · rw [hrun, List.range_succ]
    rw [replayGo_append len m _ (List.range k) [k] initAcc
      (fun i hi => hb i (by have := List.mem_range.mp hi; omega))]
    have hk : recAddr2 ((k : Nat) : Int) + 1 < len := hb k (by omega)
    simp only [replayGo, if_pos hk]
    have hc : ((k : Nat) : Int) = ((k + 1 : Nat) : Int) - 1 := by push_cast; ring
    simp only [replayStep]
    rw [if_pos hc]
    simp [chan2]

theorem foldl_max_init (a b : Int) (xs : List Int) :
    List.foldl max (max a b) xs = max a (List.foldl max b xs) := by
  induction xs generalizing b with
  | nil => rfl
  | cons x xs ih =>
      simp only [List.foldl_cons]
      rw [max_assoc]
      exact ih (max b x)

theorem range_map_chan_eq (s : LoggerState) (l : List (Int × Int))
    (hsl : storedList s l) :
    (List.range l.length).map (fun i => (chan1 s.mem i, chan2 s.mem i)) = l := by
  apply List.ext_get
  · simp
  · intro i h1 h2
    have h := hsl.2 ⟨i, h2⟩
    simp only [List.get_eq_getElem, List.getElem_map, List.getElem_range]
    simp only [List.get_eq_getElem] at h
    exact h

theorem range_map_chan1_eq (s : LoggerState) (l : List (Int × Int))
    (hsl : storedList s l) :
    (List.range l.length).map (chan1 s.mem) = l.map Prod.fst := by
  have h := congrArg (List.map Prod.fst) (range_map_chan_eq s l hsl)
  simpa [List.map_map, Function.comp] using h

theorem range_map_chan2_eq (s : LoggerState) (l : List (Int × Int))
    (hsl : storedList s l) :
    (List.range l.length).map (chan2 s.mem) = l.map Prod.snd := by
  have h := congrArg (List.map Prod.snd) (range_map_chan_eq s l hsl)
  simpa [List.map_map, Function.comp] using h

theorem addr_fits (len : Int) (hlen : 244 ≤ len) (n : Nat) (hn : n ≤ 60) :
    ∀ i : Nat, i < n → recAddr2 (i : Int) + 1 < len := by
  intro i hi
  have h59 : (i : Int) ≤ 59 := by
    have : i ≤ 59 := by omega
    exact_mod_cast this
  rw [recAddr2_eq]
  omega

theorem loadData_stored (len : Int) (hlen : 244 ≤ len) (s : LoggerState)
    (p : Int × Int) (rest : List (Int × Int)) (hsl : storedList s (p :: rest))
    (h60 : (p :: rest).length ≤ 60) :
    loadData len s =
      ((p :: rest).map fun q => LoadEvent.line q.1 q.2) ++
        [LoadEvent.report
          (max (-9999) (List.foldl max p.1 (rest.map Prod.fst)))
          (Int.tdiv (((p :: rest).map Prod.fst).sum) (((p :: rest).length : Nat) : Int))
          (max (-9999) (List.foldl max p.2 (rest.map Prod.snd)))
          (Int.tdiv (((p :: rest).map Prod.snd).sum) (((p :: rest).length : Nat) : Int))
          (((p :: rest).length : Nat) : Int)
          (specificHeatCapacityAir * massAir *
            ((|((p :: rest).getLast (List.cons_ne_nil p rest)).1 - p.1| : Int) : ℚ))
          (specificHeatCapacityAir * massAir *
            ((|((p :: rest).getLast (List.cons_ne_nil p rest)).2 - p.2| : Int) : ℚ))] := by
  have hb := addr_fits len hlen (p :: rest).length h60
  have hpos : 0 < (p :: rest).length := by simp
  obtain ⟨hlines, ht1, ht2, hh1, hh2, hf1, hf2, hl1, hl2⟩ :=
    replayRun_spec len s.mem (p :: rest).length hpos hb
  have hidx : s.readingIndex = (((p :: rest).length : Nat) : Int) := hsl.1
  have hpos' : (0 : Int) < (((p :: rest).length : Nat) : Int) := by
    exact_mod_cast hpos
  have e10 : chan1 s.mem 0 = p.1 := congrArg Prod.fst (hsl.2 ⟨0, by simp⟩)
  have e20 : chan2 s.mem 0 = p.2 := congrArg Prod.snd (hsl.2 ⟨0, by simp⟩)
  have hlt : (p :: rest).length - 1 < (p :: rest).length := by omega
  have hget : (p :: rest).get ⟨(p :: rest).length - 1, hlt⟩ =
      (p :: rest).getLast (List.cons_ne_nil p rest) := by
    rw [List.getLast_eq_getElem]
    simp [List.get_eq_getElem]
  have e1l : chan1 s.mem ((p :: rest).length - 1) =
      ((p :: rest).getLast (List.cons_ne_nil p rest)).1 := by
    rw [← hget]
    exact congrArg Prod.fst (hsl.2 ⟨(p :: rest).length - 1, hlt⟩)
  have e2l : chan2 s.mem ((p :: rest).length - 1) =
      ((p :: rest).getLast (List.cons_ne_nil p rest)).2 := by
    rw [← hget]
    exact congrArg Prod.snd (hsl.2 ⟨(p :: rest).length - 1, hlt⟩)
  unfold loadData
  rw [hidx, if_pos hpos']
  rw [hlines, ht1, ht2, hh1, hh2, hf1, hf2, hl1, hl2]
  rw [range_map_chan_eq s (p :: rest) hsl]
  rw [range_map_chan1_eq s (p :: rest) hsl, range_map_chan2_eq s (p :: rest) hsl]
  rw [e10, e20, e1l, e2l]
  simp only [List.map_cons, List.foldl_cons, foldl_max_init]

theorem loadData_empty (len : Int) (s : LoggerState) (h : s.readingIndex = 0) :
    loadData len s = [LoadEvent.noData] := by
  unfold loadData
  rw [h]
  have hrun : replayRun len s.mem 0 = initAcc := rfl
  rw [hrun]
  simp [initAcc]

/-- C2: the anomaly filter accepts any candidate when there is no previous
stored record, and with a previous record it accepts if and only if both
per-channel absolute deltas are at most the threshold of 10; a delta of
exactly 10 is accepted and a delta of 11 is rejected. -/
theorem c2_anomaly_filter :
    (∀ cand : Int × Int, accept cand none = true) ∧
    (∀ cand prev : Int × Int,
        accept cand (some prev) = true ↔
          |cand.1 - prev.1| ≤ 10 ∧ |cand.2 - prev.2| ≤ 10) ∧
    accept (20, 5) (some (10, 5)) = true ∧
    accept (21, 5) (some (10, 5)) = false := by
  refine ⟨fun _ => rfl, ?_, by decide, by decide⟩
  intro cand prev
  simp only [accept, anomalyThreshold]
  split
  · rename_i h
    constructor
    · intro h'; exact absurd h' (by simp)
    · intro hc; omega
  · rename_i h
    push_neg at h
    simp only [true_iff]
    omega

/-- C3: appending when the count equals `maxReadings` (60) always fails with
`CapacityError`, the controller transitions from `Logging` to `Idle`
(`logging` becomes `false`), and neither the count nor the EEPROM image
changes. -/
theorem c3_append_at_capacity (len : Int) (s : LoggerState) (t1 t2 : Int)
    (h : s.readingIndex = maxReadings) :
    appendRecord len s t1 t2 =
      (⟨s.mem, s.readingIndex, false⟩, AppendResult.capacityError) := by
  unfold appendRecord
  rw [if_neg (by rw [h]; omega)]

/-- C3 witness: a full store (count 60) rejects the append, stops logging,
and keeps count and memory unchanged. -/
theorem c3_append_at_capacity_witness :
    (⟨fun _ => 0, 60, true⟩ : LoggerState).readingIndex = maxReadings ∧
    appendRecord 1024 ⟨fun _ => 0, 60, true⟩ 70 71 =
      (⟨fun _ => 0, 60, false⟩, AppendResult.capacityError) :=
  ⟨rfl, c3_append_at_capacity 1024 ⟨fun _ => 0, 60, true⟩ 70 71 rfl⟩

/-- C4: the Idle-to-Logging toggle resets the reading index to 0, so the
next append of the session goes to index 0 (and leaves the index at 1),
regardless of the prior persisted count. -/
theorem c4_session_start (len : Int) (hlen : 7 < len) (s : LoggerState)
    (hidle : s.logging = false) (t1 t2 : Int) :
    (toggleButton s).readingIndex = 0 ∧
    (toggleButton s).logging = true ∧
    (appendRecord len (toggleButton s) t1 t2).2 = AppendResult.ok 0 ∧
    (appendRecord len (toggleButton s) t1 t2).1.readingIndex = 1 := by
  have ht : toggleButton s = ⟨s.mem, 0, true⟩ := by
    unfold toggleButton
    rw [hidle]
    simp
  have happ := appendRecord_eq_of_fits len ⟨s.mem, 0, true⟩ t1 t2
    (by show (0 : Int) < maxReadings; decide)
    (by show recAddr2 (0 : Int) + 1 < len; rw [recAddr2_eq]; omega)
  refine ⟨by rw [ht], by rw [ht], ?_, ?_⟩
  · rw [ht, happ]
  · rw [ht, happ]
    rfl

/-- C4 witness: starting from a state with persisted count 37, toggling
starts a session whose first append goes to index 0. -/
theorem c4_session_start_witness :
    (toggleButton ⟨fun _ => 0, 37, false⟩).readingIndex = 0 ∧
    (toggleButton ⟨fun _ => 0, 37, false⟩).logging = true ∧
    (appendRecord 1024 (toggleButton ⟨fun _ => 0, 37, false⟩) 70 72).2 =
      AppendResult.ok 0 ∧
    (appendRecord 1024 (toggleButton ⟨fun _ => 0, 37, false⟩) 70 72).1.readingIndex = 1 :=
  c4_session_start 1024 (by decide) ⟨fun _ => 0, 37, false⟩ rfl 70 72

/-- C7: a rejected candidate leaves the state exactly as it was — the count,
the EEPROM image (hence the stored baseline record) and the logging flag
are unchanged, so a run of consecutively rejected candidates is each
compared against the same last-stored record. -/
theorem c7_anomaly_reject (len : Int) (s : LoggerState) (a1 a2 t1 t2 : Int)
    (ha1 : 0 < a1) (ha2 : 0 < a2)
    (hrej : accept (t1, t2) (prevStored s) = false) :
    sampleTick len s a1 a2 t1 t2 = (s, TickOutcome.anomalyRejected) ∧
    (sampleTick len s a1 a2 t1 t2).1.readingIndex = s.readingIndex ∧
    prevStored (sampleTick len s a1 a2 t1 t2).1 = prevStored s ∧
    (sampleTick len s a1 a2 t1 t2).1.logging = s.logging := by
  have hmain : sampleTick len s a1 a2 t1 t2 = (s, TickOutcome.anomalyRejected) := by
    unfold sampleTick
    rw [if_pos (⟨ha1, ha2⟩ : a1 > 0 ∧ a2 > 0)]
    rw [if_neg (by rw [hrej]; simp)]
  exact ⟨hmain, by rw [hmain], by rw [hmain], by rw [hmain]⟩

/-- C7 witness: with stored baseline (70, 72) a candidate (100, 72) is
rejected and the state is untouched. -/
theorem c7_anomaly_reject_witness :
    accept (100, 72)
        (prevStored ⟨putInt16 (putInt16 (fun _ => 0) 4 70) 6 72, 1, true⟩) = false ∧
    sampleTick 1024 ⟨putInt16 (putInt16 (fun _ => 0) 4 70) 6 72, 1, true⟩ 500 500 100 72 =
      (⟨putInt16 (putInt16 (fun _ => 0) 4 70) 6 72, 1, true⟩,
        TickOutcome.anomalyRejected) :=
  ⟨by decide,
    (c7_anomaly_reject 1024 ⟨putInt16 (putInt16 (fun _ => 0) 4 70) 6 72, 1, true⟩
      500 500 100 72 (by decide) (by decide) (by decide)).1⟩

/-- C8: a non-positive raw reading on either channel makes the tick emit a
sensor-fault diagnostic and skip the sample: the state is unchanged and the
outcome does not depend on the converted temperatures, so the anomaly
filter never acts. -/
theorem c8_sensor_fault (len : Int) (s : LoggerState) (a1 a2 : Int)
    (hfault : a1 ≤ 0 ∨ a2 ≤ 0) :
    ∀ t1 t2 : Int,
      sampleTick len s a1 a2 t1 t2 = (s, TickOutcome.sensorFault) ∧
      (sampleTick len s a1 a2 t1 t2).1.readingIndex = s.readingIndex ∧
      (sampleTick len s a1 a2 t1 t2).1.logging = s.logging := by
  intro t1 t2
  have hmain : sampleTick len s a1 a2 t1 t2 = (s, TickOutcome.sensorFault) := by
    unfold sampleTick
    rw [if_neg (by omega)]
  exact ⟨hmain, by rw [hmain], by rw [hmain]⟩

/-- C8 witness: a zero raw reading on channel 1 skips the sample with a
sensor fault, whatever the converted values are. -/
theorem c8_sensor_fault_witness :
    sampleTick 1024 ⟨fun _ => 0, 3, true⟩ 0 500 70 72 =
      (⟨fun _ => 0, 3, true⟩, TickOutcome.sensorFault) ∧
    sampleTick 1024 ⟨fun _ => 0, 3, true⟩ 0 500 9999 9999 =
      (⟨fun _ => 0, 3, true⟩, TickOutcome.sensorFault) :=
  ⟨(c8_sensor_fault 1024 ⟨fun _ => 0, 3, true⟩ 0 500 (by decide) 70 72).1,
    (c8_sensor_fault 1024 ⟨fun _ => 0, 3, true⟩ 0 500 (by decide) 9999 9999).1⟩

theorem eraseLoop_spec (m : Mem) : ∀ n : Nat, ∀ x : Int,
    eraseLoop m n x =
      if eepromStartAddress ≤ x ∧ x < eepromStartAddress + (n : Int) then 0
      else m x := by
  intro n
  induction n with
  | zero =>
      intro x
      rw [if_neg (by omega)]
      rfl
  | succ k ih =>
      intro x
      show writeByte (eraseLoop m k) (eepromStartAddress + (k : Int)) 0 x = _
      by_cases hx : x = eepromStartAddress + (k : Int)
      · rw [hx, writeByte_same]
        rw [if_pos (by unfold eepromStartAddress; omega)]
      · rw [writeByte_ne _ _ _ _ hx, ih x]
        have hcast : ((k + 1 : Nat) : Int) = (k : Int) + 1 := by push_cast; ring
        by_cases hin : eepromStartAddress ≤ x ∧ x < eepromStartAddress + (k : Int)
        · rw [if_pos hin, if_pos (by omega)]
        · rw [if_neg hin, if_neg (by omega)]

/-- C9: erase resets the count to 0, durably persists the reset count at
EEPROM address 0, and zeroes the entire record region; afterwards `get 0`
fails with `RangeError` and a replay emits no record lines, only the
no-data message. -/
theorem c9_erase (len : Int) (s : LoggerState) :
    (eraseAll s).readingIndex = 0 ∧
    getInt16 (eraseAll s).mem 0 = 0 ∧
    (∀ x : Int, eepromStartAddress ≤ x →
        x < eepromStartAddress + maxReadings * 4 → (eraseAll s).mem x = 0) ∧
    getRecord len (eraseAll s) 0 = Except.error GetError.rangeError ∧
    loadData len (eraseAll s) = [LoadEvent.noData] := by
  refine ⟨rfl, ?_, ?_, ?_, ?_⟩
  · exact getInt16_putInt16 _ 0 0 (by decide)
  · intro x hx1 hx2
    show putInt16 (eraseLoop s.mem (maxReadings * 4).toNat) 0 0 x = 0
    have h4 : eepromStartAddress = (4 : Int) := rfl
    rw [putInt16_apply_ne _ _ _ _ (by omega) (by omega)]
    rw [eraseLoop_spec s.mem (maxReadings * 4).toNat x]
    have h240 : (((maxReadings * 4).toNat : Nat) : Int) = 240 := by decide
    rw [if_pos (by unfold maxReadings at hx2; omega)]
  · unfold getRecord
    rw [if_neg]
    intro hcon
    have h0 : (eraseAll s).readingIndex = 0 := rfl
    rw [h0] at hcon
    exact absurd hcon.1 (by omega)
  · exact loadData_empty len (eraseAll s) rfl

/-- C9 witness: erasing a store with one record yields count 0, a zero byte
in the middle of the record region, a persisted zero count, a failing
`get 0`, and a no-data replay. -/
theorem c9_erase_witness :
    (eraseAll ⟨putInt16 (putInt16 (fun _ => 0) 4 70) 6 72, 1, false⟩).readingIndex = 0 ∧
    getInt16 (eraseAll ⟨putInt16 (putInt16 (fun _ => 0) 4 70) 6 72, 1, false⟩).mem 0 = 0 ∧
    (eraseAll ⟨putInt16 (putInt16 (fun _ => 0) 4 70) 6 72, 1, false⟩).mem 100 = 0 ∧
    getRecord 1024 (eraseAll ⟨putInt16 (putInt16 (fun _ => 0) 4 70) 6 72, 1, false⟩) 0 =
      Except.error GetError.rangeError ∧
    loadData 1024 (eraseAll ⟨putInt16 (putInt16 (fun _ => 0) 4 70) 6 72, 1, false⟩) =
      [LoadEvent.noData] := by
  obtain ⟨h1, h2, h3, h4, h5⟩ :=
    c9_erase 1024 ⟨putInt16 (putInt16 (fun _ => 0) 4 70) 6 72, 1, false⟩
  exact ⟨h1, h2, h3 100 (by decide) (by decide), h4, h5⟩

/-- C10: the Idle-to-Logging toggle touches only the volatile state: the
EEPROM image is unchanged, so the persisted count (and every record) keeps
its prior value, and a restart right after the toggle restores exactly the
state a restart before the toggle would have produced; the first successful
append of the new session is what persists the new count 1. -/
theorem c10_toggle_frame (len : Int) (s : LoggerState) (hidle : s.logging = false)
    (hlen : 7 < len) (t1 t2 : Int) :
    (toggleButton s).mem = s.mem ∧
    getInt16 (toggleButton s).mem 0 = getInt16 s.mem 0 ∧
    restart (toggleButton s).mem = restart s.mem ∧
    getInt16 (appendRecord len (toggleButton s) t1 t2).1.mem 0 = 1 := by
  have ht : toggleButton s = ⟨s.mem, 0, true⟩ := by
    unfold toggleButton
    rw [hidle]
    simp
  have hmem : (toggleButton s).mem = s.mem := by rw [ht]
  have happ := appendRecord_eq_of_fits len ⟨s.mem, 0, true⟩ t1 t2
    (by show (0 : Int) < maxReadings; decide)
    (by show recAddr2 (0 : Int) + 1 < len; rw [recAddr2_eq]; omega)
  refine ⟨hmem, by rw [hmem], by rw [hmem], ?_⟩
  have hval : getInt16 (putInt16 (putInt16 (putInt16 s.mem (recAddr1 (0 : Int)) t1)
      (recAddr2 (0 : Int)) t2) 0 ((0 : Int) + 1)) 0 = (0 : Int) + 1 :=
    getInt16_putInt16 _ 0 ((0 : Int) + 1) (by decide)
  rw [ht, happ]
  exact hval

/-- C10 witness: starting from an idle state with persisted count 37, the
toggle leaves the persisted count readable as 37, a restart recovers it,
and the first append persists 1. -/
theorem c10_toggle_frame_witness :
    getInt16 (toggleButton ⟨putInt16 (fun _ => 0) 0 37, 37, false⟩).mem 0 = 37 ∧
    restart (toggleButton ⟨putInt16 (fun _ => 0) 0 37, 37, false⟩).mem =
      restart (putInt16 (fun _ => 0) 0 37) ∧
    getInt16 (appendRecord 1024
      (toggleButton ⟨putInt16 (fun _ => 0) 0 37, 37, false⟩) 70 72).1.mem 0 = 1 := by
  obtain ⟨h1, h2, h3, h4⟩ :=
    c10_toggle_frame 1024 ⟨putInt16 (fun _ => 0) 0 37, 37, false⟩ rfl (by decide) 70 72
  refine ⟨?_, h3, h4⟩
  rw [h2]
  decide

/-- C1: for every count in [0, 60] and every sequence of accepted appends
starting a fresh session, `get i` for each `i < count` returns exactly the
record passed to the corresponding append, and a replay streams every
stored record as a raw line, in storage order, before the single aggregate
report (or emits only the no-data message when the store is empty). -/
theorem c1_append_get_replay (len : Int) (hlen : 244 ≤ len)
    (l : List (Int × Int)) (h60 : l.length ≤ 60)
    (hr : ∀ p ∈ l, inRange16 p.1 ∧ inRange16 p.2)
    (s0 : LoggerState) (h0 : s0.readingIndex = 0) :
    (appendAll len s0 l).readingIndex = (l.length : Int) ∧
    (∀ j : Fin l.length,
        getRecord len (appendAll len s0 l) (j : Nat) = Except.ok (l.get j)) ∧
    (∀ (p : Int × Int) (rest : List (Int × Int)), l = p :: rest →
        ∃ h1 a1 h2 a2 : Int, ∃ e1 e2 : ℚ,
          loadData len (appendAll len s0 l) =
            (l.map fun q => LoadEvent.line q.1 q.2) ++
              [LoadEvent.report h1 a1 h2 a2 (l.length : Int) e1 e2]) ∧
    (l = [] → loadData len (appendAll len s0 l) = [LoadEvent.noData]) := by
  have hcap : s0.readingIndex + (l.length : Int) ≤ maxReadings := by
    rw [h0]
    unfold maxReadings
    have : (l.length : Int) ≤ 60 := by exact_mod_cast h60
    omega
  obtain ⟨hidx, hlog, hrec, hfr⟩ :=
    appendAll_spec len hlen l s0 hr (by omega) hcap
  have hidx' : (appendAll len s0 l).readingIndex = (l.length : Int) := by
    rw [hidx, h0]
    ring
  have hsl : storedList (appendAll len s0 l) l := by
    refine ⟨hidx', ?_⟩
    intro j
    have hj := hrec (j : Nat) j.isLt
    rw [h0, zero_add] at hj
    exact hj
  refine ⟨hidx', ?_, ?_, ?_⟩
  · intro j
    have hj1 : ((j : Nat) : Int) < (appendAll len s0 l).readingIndex := by
      rw [hidx']
      exact_mod_cast j.isLt
    have hj2 : recAddr2 ((j : Nat) : Int) + 1 < len :=
      addr_fits len hlen l.length h60 (j : Nat) j.isLt
    unfold getRecord
    rw [if_pos ⟨hj1, hj2⟩]
    exact congrArg Except.ok (hsl.2 j)
  · intro p rest hpr
    subst hpr
    exact ⟨_, _, _, _, _, _, loadData_stored len hlen _ p rest hsl h60⟩
  · intro hnil
    apply loadData_empty
    rw [hidx', hnil]
    rfl

/-- C1 witness: appending (70, 72) then (74, 76) into a fresh session makes
`get 0` and `get 1` return them, and the replay streams the two lines in
order before the report. -/
theorem c1_append_get_replay_witness :
    (appendAll 1024 ⟨fun _ => 0, 0, true⟩ [(70, 72), (74, 76)]).readingIndex = 2 ∧
    getRecord 1024 (appendAll 1024 ⟨fun _ => 0, 0, true⟩ [(70, 72), (74, 76)]) 0 =
      Except.ok (70, 72) ∧
    getRecord 1024 (appendAll 1024 ⟨fun _ => 0, 0, true⟩ [(70, 72), (74, 76)]) 1 =
      Except.ok (74, 76) ∧
    (∃ h1 a1 h2 a2 : Int, ∃ e1 e2 : ℚ,
      loadData 1024 (appendAll 1024 ⟨fun _ => 0, 0, true⟩ [(70, 72), (74, 76)]) =
        [LoadEvent.line 70 72, LoadEvent.line 74 76,
          LoadEvent.report h1 a1 h2 a2 2 e1 e2]) := by
  obtain ⟨ha, hb, hc, _⟩ :=
    c1_append_get_replay 1024 (by decide) [(70, 72), (74, 76)] (by decide)
      (by decide) ⟨fun _ => 0, 0, true⟩ rfl
  obtain ⟨h1, a1, h2, a2, e1, e2, hload⟩ := hc (70, 72) [(74, 76)] rfl
  exact ⟨ha, hb ⟨0, by decide⟩, hb ⟨1, by decide⟩,
    ⟨h1, a1, h2, a2, e1, e2, hload⟩⟩

/-- C5 counterexample: a store holding the single record (-10000, -10000) —
built by the append path of the program itself path from a fresh session — is reported
with highest = -9999 on both channels, while the true maximum of the
iterated values is -10000: the sentinel initialisation of the running
maximum masks the true maximum when every value lies below -9999. -/
theorem c5_counterexample :
    storedList (appendAll 1024 ⟨fun _ => 0, 0, true⟩ [(-10000, -10000)])
      [(-10000, -10000)] ∧
    (∃ e1 e2 : ℚ,
      loadData 1024 (appendAll 1024 ⟨fun _ => 0, 0, true⟩ [(-10000, -10000)]) =
        [LoadEvent.line (-10000) (-10000),
          LoadEvent.report (-9999) (-10000) (-9999) (-10000) 1 e1 e2]) ∧
    List.foldl max (-10000) (List.map Prod.fst ([] : List (Int × Int))) = -10000 ∧
    ((-9999 : Int) ≠ -10000) :=
  ⟨⟨by decide, by decide⟩, ⟨_, _, rfl⟩, by decide, by decide⟩

/-- C5 (amended): report generation on an empty store (count 0) emits only
the no-data message; on a non-empty store the per-channel average is the
truncating integer division of the channel sum by the count, and each
per-channel highest is the maximum of the sentinel -9999 and the true
maximum of the iterated values — hence equal to the true maximum whenever
the true maximum is at least -9999. -/
theorem c5_report (len : Int) (hlen : 244 ≤ len) :
    (∀ s : LoggerState, s.readingIndex = 0 → loadData len s = [LoadEvent.noData]) ∧
    (∀ (s : LoggerState) (p : Int × Int) (rest : List (Int × Int)),
        storedList s (p :: rest) → (p :: rest).length ≤ 60 →
        ∃ e1 e2 : ℚ,
          loadData len s =
            ((p :: rest).map fun q => LoadEvent.line q.1 q.2) ++
              [LoadEvent.report
                (max (-9999) (List.foldl max p.1 (rest.map Prod.fst)))
                (Int.tdiv (((p :: rest).map Prod.fst).sum) ((p :: rest).length : Int))
                (max (-9999) (List.foldl max p.2 (rest.map Prod.snd)))
                (Int.tdiv (((p :: rest).map Prod.snd).sum) ((p :: rest).length : Int))
                ((p :: rest).length : Int) e1 e2] ∧
          ((-9999 : Int) ≤ List.foldl max p.1 (rest.map Prod.fst) →
              max (-9999) (List.foldl max p.1 (rest.map Prod.fst)) =
                List.foldl max p.1 (rest.map Prod.fst)) ∧
          ((-9999 : Int) ≤ List.foldl max p.2 (rest.map Prod.snd) →
              max (-9999) (List.foldl max p.2 (rest.map Prod.snd)) =
                List.foldl max p.2 (rest.map Prod.snd))) := by
  refine ⟨fun s h => loadData_empty len s h, ?_⟩
  intro s p rest hsl h60
  exact ⟨_, _, loadData_stored len hlen s p rest hsl h60,
    fun h => max_eq_right h, fun h => max_eq_right h⟩

/-- C5 witness: the empty store replays as no-data, and the two-record store
(70, 72), (74, 76) is reported with highest 74/76, truncating averages
72/74 and count 2. -/
theorem c5_report_witness :
    loadData 1024 ⟨fun _ => 0, 0, false⟩ = [LoadEvent.noData] ∧
    ∃ e1 e2 : ℚ,
      loadData 1024 (appendAll 1024 ⟨fun _ => 0, 0, true⟩ [(70, 72), (74, 76)]) =
        [LoadEvent.line 70 72, LoadEvent.line 74 76,
          LoadEvent.report 74 72 76 74 2 e1 e2] := by
  obtain ⟨hempty, hfull⟩ := c5_report 1024 (by decide)
  obtain ⟨e1, e2, hload, _, _⟩ :=
    hfull (appendAll 1024 ⟨fun _ => 0, 0, true⟩ [(70, 72), (74, 76)])
      (70, 72) [(74, 76)] ⟨by decide, by decide⟩ (by decide)
  exact ⟨hempty _ rfl, ⟨e1, e2, hload⟩⟩

/-- C6: on a non-empty store the per-channel energy estimate of the report
equals specificHeatCapacity × airMass × |last − first|, with
specificHeatCapacity the fixed constant 1.005 and airMass the fixed
constant derived from the 10-inch-cube enclosure volume (in litres) and
the air density 1.225 g/L, where last and first are the stored values at
the last and first indices. -/
theorem c6_energy (len : Int) (hlen : 244 ≤ len) (s : LoggerState)
    (p : Int × Int) (rest : List (Int × Int)) (hsl : storedList s (p :: rest))
    (h60 : (p :: rest).length ≤ 60) :
    ∃ h1 a1 h2 a2 : Int,
      loadData len s =
        ((p :: rest).map fun q => LoadEvent.line q.1 q.2) ++
          [LoadEvent.report h1 a1 h2 a2 ((p :: rest).length : Int)
            ((1.005 : ℚ) * ((10 * 10 * 10 * (2.54 * 2.54 * 2.54) / 1000) * 1.225) *
              ((|((p :: rest).getLast (List.cons_ne_nil p rest)).1 - p.1| : Int) : ℚ))
            ((1.005 : ℚ) * ((10 * 10 * 10 * (2.54 * 2.54 * 2.54) / 1000) * 1.225) *
              ((|((p :: rest).getLast (List.cons_ne_nil p rest)).2 - p.2| : Int) : ℚ))] := by
  have hc : specificHeatCapacityAir * massAir =
      (1.005 : ℚ) * ((10 * 10 * 10 * (2.54 * 2.54 * 2.54) / 1000) * 1.225) := by
    unfold specificHeatCapacityAir massAir volumeLiters volumeInches densityAir
    norm_num
  refine ⟨max (-9999) (List.foldl max p.1 (rest.map Prod.fst)),
    Int.tdiv (((p :: rest).map Prod.fst).sum) ((p :: rest).length : Int),
    max (-9999) (List.foldl max p.2 (rest.map Prod.snd)),
    Int.tdiv (((p :: rest).map Prod.snd).sum) ((p :: rest).length : Int), ?_⟩
  rw [loadData_stored len hlen s p rest hsl h60, hc]

/-- C6 witness: for the stored sequence (70, 72), (77, 76) the energies are
the fixed constant times 7 and times 4. -/
theorem c6_energy_witness :
    ∃ h1 a1 h2 a2 : Int,
      loadData 1024 (appendAll 1024 ⟨fun _ => 0, 0, true⟩ [(70, 72), (77, 76)]) =
        [LoadEvent.line 70 72, LoadEvent.line 77 76,
          LoadEvent.report h1 a1 h2 a2 2
            ((1.005 : ℚ) * ((10 * 10 * 10 * (2.54 * 2.54 * 2.54) / 1000) * 1.225) * 7)
            ((1.005 : ℚ) * ((10 * 10 * 10 * (2.54 * 2.54 * 2.54) / 1000) * 1.225) * 4)] := by
  obtain ⟨h1, a1, h2, a2, hload⟩ :=
    c6_energy 1024 (by decide)
      (appendAll 1024 ⟨fun _ => 0, 0, true⟩ [(70, 72), (77, 76)])
      (70, 72) [(77, 76)] ⟨by decide, by decide⟩ (by decide)
  exact ⟨h1, a1, h2, a2, hload⟩

end SolarOven
